import Mathlib

/-!
Shallow embedding of `src/parakeet/analyse/_extract.py`: sub-tomogram
extraction and gold-standard half-set averaging.

Cubes (the extracted sub-volumes) are modelled as flat vectors of rationals
(`Fin sz → ℚ`), idealising the float arithmetic of the source as exact
rational arithmetic.  The particle store (an HDF5 file with a `data` dataset
and a `voxel_size` attribute) is modelled as a list of cubes plus a
voxel-size triple.  The index draw performed by `np.random.choice` is an
explicit argument of the embedded averaging function: the source seeds only
Python's `random` module (`random.seed(0)` at import), never NumPy's global
generator, so the draw is an independent input of the computation, not a
function of that seed.
-/

namespace Parakeet

/-- An extracted particle cube, flattened: `sz` voxels of rational data. -/
abbrev Cube (sz : ℕ) := Fin sz → ℚ

/-- The all-zero cube (`np.zeros`). -/
def zeroCube (sz : ℕ) : Cube sz := fun _ => 0

/-- Elementwise addition of cubes (`half[half_index] += data[particle_index]`). -/
def addCube {sz : ℕ} (a b : Cube sz) : Cube sz := fun v => a v + b v

/-- Elementwise division of a cube by a scalar (`half[i] = half[i] / num[i]`). -/
def divCube {sz : ℕ} (a : Cube sz) (n : ℚ) : Cube sz := fun v => a v / n

/-- A constant-valued cube, used for concrete test stores. -/
def cubeConst (sz : ℕ) (q : ℚ) : Cube sz := fun _ => q

/-- The persisted particle store: the `data` dataset (ordered sequence of
entries) together with the shared `voxel_size` triple written once at store
creation (`handle["voxel_size"] = voxel_size`). -/
structure ParticleStore (α : Type) where
  data : List α
  voxel_size : ℚ × ℚ × ℚ
  deriving DecidableEq

/-- The failure modes of `average_extracted_particles`: the two `assert`
statements on the effective particle count, named after the spec's error
taxonomy. -/
inductive AvgError where
  | insufficientParticles
  | numParticlesExceedsStore
  deriving DecidableEq

/-- One averaged half-map output: the mean cube, tagged with the store's
voxel size (`handle.voxel_size = voxel_size`). -/
structure HalfMap (sz : ℕ) where
  data : Cube sz
  voxel_size : ℚ × ℚ × ℚ
  deriving DecidableEq

/-- Effective particle count: `if num_particles is None or num_particles <= 0:
num_particles = data.shape[0]`.  `none` models Python `None`; the default
argument of the source function is `0`, hence "not supplied" is `some 0`. -/
def effectiveNum (requested : Option ℤ) (N : ℕ) : ℕ :=
  match requested with
  | none => N
  | some n => if n ≤ 0 then N else n.toNat

/-- The split of the drawn index list:
`indices = [indices[:half_num_particles], indices[half_num_particles:]]`. -/
def chosenHalves (numP : ℕ) (draw : List ℕ) : List ℕ × List ℕ :=
  (draw.take (numP / 2), draw.drop (numP / 2))

/-- `data[particle_index, :, :, :]`.  All executions of the source index in
bounds (the drawn indices come from `range(data.shape[0])`); out-of-range
reads are given the zero cube so the embedding stays total. -/
def dataAt {sz : ℕ} (data : List (Cube sz)) (i : ℕ) : Cube sz :=
  data.getD i (zeroCube sz)

/-- The accumulation loop for one half: starting from `np.zeros` and count 0,
add `data[particle_index]` and increment `num[half_index]` for each drawn
index of the half. -/
def accumulateHalf {sz : ℕ} (data : List (Cube sz)) (idxs : List ℕ) :
    Cube sz × ℕ :=
  idxs.foldl (fun acc i => (addCube acc.1 (dataAt data i), acc.2 + 1))
    (zeroCube sz, 0)

/-- The final division step: `if num[i] > 0: half[i] = half[i] / num[i]`. -/
def finishHalf {sz : ℕ} (acc : Cube sz × ℕ) : Cube sz :=
  if 0 < acc.2 then divCube acc.1 (acc.2 : ℚ) else acc.1

/-- Embedding of `average_extracted_particles`.  `num_particles` is the
requested count (`none` for `None`, the source's default is `0`); `draw` is
the index list produced by
`np.random.choice(range(data.shape[0]), size=num_particles, replace=False)`,
an input here because the source never seeds NumPy's generator.  The two
`assert` statements become the two error returns, in source order. -/
def average_extracted_particles {sz : ℕ} (store : ParticleStore (Cube sz))
    (num_particles : Option ℤ) (draw : List ℕ) :
    Except AvgError (HalfMap sz × HalfMap sz) :=
  let N := store.data.length
  let numP := effectiveNum num_particles N
  if numP / 2 = 0 then .error .insufficientParticles
  else if ¬ numP ≤ N then .error .numParticlesExceedsStore
  else
    let halves := chosenHalves numP draw
    let a1 := accumulateHalf store.data halves.1
    let a2 := accumulateHalf store.data halves.2
    .ok (⟨finishHalf a1, store.voxel_size⟩, ⟨finishHalf a2, store.voxel_size⟩)

/-- The spec's description of one half-map: the elementwise sum of the
stored cubes at the half's indices, divided by the half's count. -/
def specHalfMean {sz : ℕ} (data : List (Cube sz)) (idxs : List ℕ) : Cube sz :=
  fun v => (idxs.map fun i => dataAt data i v).sum / (idxs.length : ℚ)

/-- A concrete two-particle store (single-voxel cubes holding 0 and 2). -/
def demoStore2 : ParticleStore (Cube 1) :=
  ⟨[cubeConst 1 0, cubeConst 1 2], (1, 1, 1)⟩

/-- Voxel 0 of half-map 1 of an averaging result (37 on error). -/
def half1At (r : Except AvgError (HalfMap 1 × HalfMap 1)) : ℚ :=
  match r with
  | .ok p => p.1.data 0
  | .error _ => 37

/-- The half-map pair the averaging of `demoStore2` produces on the draw
`[0, 1]` with `num_particles = 2`. -/
def demoHM : HalfMap 1 × HalfMap 1 :=
  (⟨fun _ => 0, (1, 1, 1)⟩, ⟨fun _ => 2, (1, 1, 1)⟩)

/-- Every rational is bounded by the square of some natural number (used to
define the integer ceiling of a square root). -/
lemma exists_natSq_ge (q : ℚ) : ∃ n : ℕ, q ≤ (n : ℚ) ^ 2 := by
  rcases le_or_lt q 0 with h | h
  · exact ⟨0, by simpa using h.trans (by norm_num)⟩
  · refine ⟨⌈q⌉₊, ?_⟩
    have h1 : q ≤ (⌈q⌉₊ : ℚ) := Nat.le_ceil q
    have h2 : (1 : ℚ) ≤ (⌈q⌉₊ : ℚ) := by exact_mod_cast Nat.ceil_pos.mpr h
    nlinarith

/-- `int(ceil(sqrt(q)))` for a nonnegative rational `q`: the least natural
number whose square dominates `q`. -/
def ceilSqrtQ (q : ℚ) : ℕ := Nat.find (exists_natSq_ge q)

/-- The squared physical radius of the particle's atomic extent in voxel
units: `((xmin - xc)/voxel_size[0])**2 + ((ymin - yc)/voxel_size[1])**2 +
((zmin - zc)/voxel_size[2])**2`, where each centroid coordinate is the
midpoint of that axis's extent (`xc = (xmax + xmin) / 2.0` etc.). -/
def boxRadiusSq (xmin xmax ymin ymax zmin zmax vx vy vz : ℚ) : ℚ :=
  ((xmin - (xmax + xmin) / 2) / vx) ^ 2 + ((ymin - (ymax + ymin) / 2) / vy) ^ 2
    + ((zmin - (zmax + zmin) / 2) / vz) ^ 2

/-- The per-species extraction half length of `_extract_Config`:
`particle_size // 2` for an explicit (nonzero) particle size, otherwise
`int(ceil(sqrt(boxRadiusSq))) + 1`. -/
def half_length (particle_size : ℕ)
    (xmin xmax ymin ymax zmin zmax vx vy vz : ℚ) : ℕ :=
  if particle_size = 0 then
    ceilSqrtQ (boxRadiusSq xmin xmax ymin ymax zmin zmax vx vy vz) + 1
  else particle_size / 2

/-- One append to the store: the dataset is resized by one and the cube is
written at the fresh slot (`data_handle.resize(num + 1, axis=0);
data_handle[num, :, :, :] = data; num += 1`); the returned number is the
slot index. -/
def storeAppend {α : Type} (st : ParticleStore α) (c : α) :
    ParticleStore α × ℕ :=
  ({ st with data := st.data ++ [c] }, st.data.length)

/-- Modelled from the spec: `lazy_map`, `_process_sub_tomo` and
`_iterate_particles` (imported from `parakeet.analyse._average_particles`,
whose source is not part of this tree) schedule one stateless task per
particle and yield one completed `(index, cube)` pair per particle, in
arbitrary completion order.  `completed` is that completion stream; the
coordinator loop of `_extract_Config` appends each completed cube to an
initially empty store. -/
def coordinatorRun {α : Type} (vs : ℚ × ℚ × ℚ) (completed : List (ℕ × α)) :
    ParticleStore α :=
  completed.foldl (fun st r => (storeAppend st r.2).1) ⟨[], vs⟩

/-- A stored cube as a raw nested array, so that its shape is data, not a
type index. -/
def NCube := List (List (List ℚ))

/-- `c` has shape `(L, L, L)`. -/
def cubeShapeOk (c : NCube) (L : ℕ) : Bool :=
  (c.length == L) && c.all fun p => (p.length == L) && p.all fun r => r.length == L

/-- Modelled from the spec: the VolumeSampler inside `_process_sub_tomo`
(not part of this tree) copies the axis-aligned window
`[centre - half_length, centre + half_length)` per axis out of the read-only
volume into a dense buffer of shape `(L, L, L)` with `L = 2 * half_length`. -/
def volumeSampler (vol : ℤ → ℤ → ℤ → ℚ) (c0 c1 c2 : ℤ) (half_len : ℕ) :
    NCube :=
  (List.range (2 * half_len)).map fun i : ℕ =>
    (List.range (2 * half_len)).map fun j : ℕ =>
      (List.range (2 * half_len)).map fun k : ℕ =>
        vol (c0 - (half_len : ℤ) + (i : ℤ)) (c1 - (half_len : ℤ) + (j : ℤ))
          (c2 - (half_len : ℤ) + (k : ℤ))

/-- A concrete all-zero volume for witnesses. -/
def demoVol : ℤ → ℤ → ℤ → ℚ := fun _ _ _ => 0

/-- The particle reordering of `_extract_Config`:
`positions, orientations = zip(*sorted(zip(positions, orientations),
key=lambda x: x[0][1]))` — a stable sort of the position/orientation pairs
by the position's second coordinate (y). -/
def sortParticlesByY {α : Type} (positions : List (ℚ × ℚ × ℚ))
    (orientations : List α) : List (ℚ × ℚ × ℚ) × List α :=
  let pairs := (positions.zip orientations).mergeSort
    fun a b => decide (a.1.2.1 ≤ b.1.2.1)
  (pairs.map Prod.fst, pairs.map Prod.snd)

/-- The four `assert` statements guarding `_extract_Config`, in source
order: `voxel_size[0] > 0`, `voxel_size[0] == voxel_size[1]`,
`voxel_size[0] == voxel_size[2]`, `sample.number_of_molecules == 1`. -/
def extractGuards (voxel_size : ℚ × ℚ × ℚ) (number_of_molecules : ℕ) :
    Except String Unit :=
  if voxel_size.1 ≤ 0 then .error "assert voxel_size[0] > 0"
  else if voxel_size.1 ≠ voxel_size.2.1 then
    .error "assert voxel_size[0] == voxel_size[1]"
  else if voxel_size.1 ≠ voxel_size.2.2 then
    .error "assert voxel_size[0] == voxel_size[2]"
  else if number_of_molecules ≠ 1 then
    .error "assert sample.number_of_molecules == 1"
  else .ok ()

/-- Folding the accumulation step over any start state adds the pointwise
sum of the selected cubes and the number of selected indices. -/
lemma accum_general {sz : ℕ} (data : List (Cube sz)) (idxs : List ℕ)
    (c : Cube sz) (n : ℕ) :
    idxs.foldl (fun acc i => (addCube acc.1 (dataAt data i), acc.2 + 1)) (c, n) =
      (fun v => c v + (idxs.map fun i => dataAt data i v).sum, n + idxs.length) := by
  induction idxs generalizing c n with
  | nil =>
    simp only [List.foldl_nil, List.map_nil, List.sum_nil, List.length_nil,
      Nat.add_zero]
    exact Prod.ext (funext fun v => (add_zero _).symm) rfl
  | cons i is ih =>
    simp only [List.foldl_cons, List.map_cons, List.sum_cons, List.length_cons]
    rw [ih]
    refine Prod.ext (funext fun v => ?_) ?_
    · simp [addCube, add_assoc]
    · omega

/-- The accumulator of one half ends as the pointwise sum and the index
count. -/
lemma accumulateHalf_eq {sz : ℕ} (data : List (Cube sz)) (idxs : List ℕ) :
    accumulateHalf data idxs =
      (fun v => (idxs.map fun i => dataAt data i v).sum, idxs.length) := by
  unfold accumulateHalf
  rw [accum_general]
  simp [zeroCube]

/-- Accumulate-then-divide computes exactly the spec's elementwise mean
(when the half is empty both sides degenerate to the zero cube). -/
lemma finish_accum_eq_mean {sz : ℕ} (data : List (Cube sz)) (idxs : List ℕ) :
    finishHalf (accumulateHalf data idxs) = specHalfMean data idxs := by
  rw [accumulateHalf_eq]
  unfold finishHalf specHalfMean divCube
  by_cases h : 0 < idxs.length
  · simp [h]
  · have hnil : idxs = [] := List.length_eq_zero.mp (by omega)
    subst hnil
    simp

/-- Concrete evaluation: averaging `demoStore2` on the draw `[0, 1]`
produces `demoHM`. -/
lemma demoHM_ok :
    average_extracted_particles demoStore2 (some 2) [0, 1] = .ok demoHM := by
  have hs : chosenHalves (effectiveNum (some 2) demoStore2.data.length) [0, 1]
      = ([0], [1]) := by
    simp [chosenHalves, effectiveNum, demoStore2]
  have hf1 : finishHalf (accumulateHalf demoStore2.data [0]) = fun _ => (0 : ℚ) := by
    funext v
    simp [finishHalf, accumulateHalf, addCube, dataAt, zeroCube, demoStore2,
      cubeConst, divCube]
  have hf2 : finishHalf (accumulateHalf demoStore2.data [1]) = fun _ => (2 : ℚ) := by
    funext v
    simp [finishHalf, accumulateHalf, addCube, dataAt, zeroCube, demoStore2,
      cubeConst, divCube]
  have hc1 : ¬ effectiveNum (some 2) demoStore2.data.length / 2 = 0 := by
    simp [effectiveNum, demoStore2]
  have hc2 : effectiveNum (some 2) demoStore2.data.length ≤
      demoStore2.data.length := by
    simp [effectiveNum, demoStore2]
  unfold average_extracted_particles
  simp only [hc1, hc2, if_neg, if_pos, not_true_eq_false, not_false_eq_true,
    ite_false, ite_true, hs]
  rw [hf1, hf2]
  rfl

/-- `ceilSqrtQ` agrees with the ceiling of the real square root on
nonnegative inputs. -/
lemma ceilSqrtQ_eq_ceil_sqrt (q : ℚ) (hq : 0 ≤ q) :
    ceilSqrtQ q = ⌈Real.sqrt (q : ℝ)⌉₊ := by
  rw [ceilSqrtQ, Nat.find_eq_iff]
  have hq' : (0 : ℝ) ≤ (q : ℝ) := by exact_mod_cast hq
  constructor
  · have h1 : Real.sqrt (q : ℝ) ≤ (⌈Real.sqrt (q : ℝ)⌉₊ : ℝ) := Nat.le_ceil _
    have h2 : ((q : ℚ) : ℝ) ≤ ((⌈Real.sqrt (q : ℝ)⌉₊ : ℕ) : ℝ) ^ 2 := by
      nlinarith [Real.sq_sqrt hq', Real.sqrt_nonneg (q : ℝ)]
    exact_mod_cast h2
  · intro m hm hle
    have h3 : (m : ℝ) < Real.sqrt (q : ℝ) := Nat.lt_ceil.mp hm
    have h4 : ((m : ℕ) : ℝ) ^ 2 < (q : ℝ) := by
      nlinarith [Real.sq_sqrt hq', Real.sqrt_nonneg (q : ℝ),
        Nat.cast_nonneg (α := ℝ) m]
    have h5 : ((q : ℚ) : ℝ) ≤ ((m : ℕ) : ℝ) ^ 2 := by exact_mod_cast hle
    linarith

/-- Folding appends over a start store concatenates the completed cubes. -/
lemma coordinatorRun_foldl_data {α : Type} (completed : List (ℕ × α))
    (st : ParticleStore α) :
    (completed.foldl (fun st r => (storeAppend st r.2).1) st).data =
      st.data ++ completed.map Prod.snd := by
  induction completed generalizing st with
  | nil => simp
  | cons r rs ih =>
    rw [List.foldl_cons, ih]
    simp [storeAppend]

/-- The final store holds exactly the completed cubes, in completion order. -/
lemma coordinatorRun_data {α : Type} (vs : ℚ × ℚ × ℚ)
    (completed : List (ℕ × α)) :
    (coordinatorRun vs completed).data = completed.map Prod.snd := by
  unfold coordinatorRun
  rw [coordinatorRun_foldl_data]
  rfl

/-- Every sampled window is a dense cube of shape `(L, L, L)` with
`L = 2 * half_length`. -/
lemma volumeSampler_shape (vol : ℤ → ℤ → ℤ → ℚ) (c0 c1 c2 : ℤ)
    (half_len : ℕ) :
    cubeShapeOk (volumeSampler vol c0 c1 c2 half_len) (2 * half_len) = true := by
  simp only [cubeShapeOk, volumeSampler, List.length_map, List.length_range,
    beq_self_eq_true, Bool.true_and, List.all_eq_true]
  intro p hp
  obtain ⟨i, hi, rfl⟩ := List.mem_map.mp hp
  simp only [List.length_map, List.length_range, beq_self_eq_true,
    Bool.true_and, List.all_eq_true]
  intro r hr
  obtain ⟨j, hj, rfl⟩ := List.mem_map.mp hr
  simp

/-- C1: the claim says the half-set averaging is a deterministic function of
the seed and the store contents.  It is not: the output is determined by the
index draw of NumPy's global generator, which `random.seed(0)` (the only
seeding in the source) does not touch and whose state differs between runs.
On the fixed store `demoStore2`, two draws that `np.random.choice` can
legally return for `num_particles = 2` (both of length 2, duplicate-free and
in range) yield different half-map outputs. -/
theorem averaging_output_depends_on_unseeded_draw :
    ([0, 1] : List ℕ).length = 2 ∧ ([0, 1] : List ℕ).Nodup ∧
      (([0, 1] : List ℕ).all fun i => decide (i < demoStore2.data.length)) = true ∧
      ([1, 0] : List ℕ).length = 2 ∧ ([1, 0] : List ℕ).Nodup ∧
      (([1, 0] : List ℕ).all fun i => decide (i < demoStore2.data.length)) = true ∧
      half1At (average_extracted_particles demoStore2 (some 2) [0, 1]) = 0 ∧
      half1At (average_extracted_particles demoStore2 (some 2) [1, 0]) = 2 ∧
      average_extracted_particles demoStore2 (some 2) [0, 1] ≠
        average_extracted_particles demoStore2 (some 2) [1, 0] := by
  have e1 : half1At (average_extracted_particles demoStore2 (some 2) [0, 1]) = 0 := by
    simp [half1At, average_extracted_particles, effectiveNum, chosenHalves,
      accumulateHalf, finishHalf, addCube, dataAt, zeroCube, demoStore2,
      cubeConst, divCube]
  have e2 : half1At (average_extracted_particles demoStore2 (some 2) [1, 0]) = 2 := by
    simp [half1At, average_extracted_particles, effectiveNum, chosenHalves,
      accumulateHalf, finishHalf, addCube, dataAt, zeroCube, demoStore2,
      cubeConst, divCube]
  refine ⟨rfl, by decide, by decide, rfl, by decide, by decide, e1, e2,
    fun h => ?_⟩
  rw [h, e2] at e1
  exact absurd e1 (by norm_num)

/-- C2: under the contract of `np.random.choice(range(N), size=numP,
replace=False)` — a duplicate-free list of `numP` indices below `N` — the
split gives half 1 the first `numP / 2` drawn indices and half 2 the
remaining `numP - numP / 2`, the two halves are disjoint, and both stay
inside `[0, N)`. -/
theorem half_split_sizes (N numP : ℕ) (draw : List ℕ)
    (hlen : draw.length = numP) (hnodup : draw.Nodup)
    (hmem : ∀ i ∈ draw, i < N) (h2 : 2 ≤ numP) :
    (chosenHalves numP draw).1.length = numP / 2 ∧
      (chosenHalves numP draw).2.length = numP - numP / 2 ∧
      (chosenHalves numP draw).1.Disjoint (chosenHalves numP draw).2 ∧
      (∀ i ∈ (chosenHalves numP draw).1, i < N) ∧
      (∀ i ∈ (chosenHalves numP draw).2, i < N) := by
  unfold chosenHalves
  refine ⟨?_, ?_, ?_, ?_, ?_⟩
  · rw [List.length_take, hlen]
    omega
  · rw [List.length_drop, hlen]
  · exact List.disjoint_take_drop hnodup le_rfl
  · exact fun i hi => hmem i (List.mem_of_mem_take hi)
  · exact fun i hi => hmem i (List.mem_of_mem_drop hi)

/-- C2 witness: `num_particles = 4` gives halves of sizes 2 and 2;
`num_particles = 5` gives halves of sizes 2 and 3. -/
theorem half_split_sizes_witness :
    (chosenHalves 4 [0, 1, 2, 3]).1.length = 2 ∧
      (chosenHalves 4 [0, 1, 2, 3]).2.length = 2 ∧
      (chosenHalves 5 [4, 0, 3, 1, 2]).1.length = 2 ∧
      (chosenHalves 5 [4, 0, 3, 1, 2]).2.length = 3 := by
  have h4 := half_split_sizes 4 4 [0, 1, 2, 3] rfl (by decide) (by decide)
    (by decide)
  have h5 := half_split_sizes 5 5 [4, 0, 3, 1, 2] rfl (by decide) (by decide)
    (by decide)
  exact ⟨h4.1, h4.2.1, h5.1, h5.2.1⟩

/-- C3: whenever the averaging succeeds, each output half-map is the
elementwise mean (sum divided by count) of the stored cubes at that half's
chosen indices, and both outputs carry the store's voxel size. -/
theorem average_halves_are_means {sz : ℕ} (store : ParticleStore (Cube sz))
    (np : Option ℤ) (draw : List ℕ) (hm : HalfMap sz × HalfMap sz)
    (hok : average_extracted_particles store np draw = .ok hm) :
    hm.1.data =
        specHalfMean store.data
          (chosenHalves (effectiveNum np store.data.length) draw).1 ∧
      hm.1.voxel_size = store.voxel_size ∧
      hm.2.data =
        specHalfMean store.data
          (chosenHalves (effectiveNum np store.data.length) draw).2 ∧
      hm.2.voxel_size = store.voxel_size := by
  unfold average_extracted_particles at hok
  by_cases h1 : effectiveNum np store.data.length / 2 = 0
  · simp [h1] at hok
  · by_cases h2 : effectiveNum np store.data.length ≤ store.data.length
    · simp [h1, h2] at hok
      obtain ⟨rfl⟩ := hok.symm
      exact ⟨finish_accum_eq_mean _ _, rfl, finish_accum_eq_mean _ _, rfl⟩
    · simp [h1, h2] at hok

/-- C3 witness: the successful run of `demoStore2` on draw `[0, 1]` yields
half-maps equal to the means of its halves, tagged with the store's voxel
size. -/
theorem average_halves_are_means_witness :
    demoHM.1.data =
        specHalfMean demoStore2.data
          (chosenHalves (effectiveNum (some 2) demoStore2.data.length) [0, 1]).1 ∧
      demoHM.1.voxel_size = demoStore2.voxel_size ∧
      demoHM.2.data =
        specHalfMean demoStore2.data
          (chosenHalves (effectiveNum (some 2) demoStore2.data.length) [0, 1]).2 ∧
      demoHM.2.voxel_size = demoStore2.voxel_size :=
  average_halves_are_means demoStore2 (some 2) [0, 1] demoHM demoHM_ok

/-- C4: whenever the effective particle count has `numP / 2 = 0`, the
averaging fails with the insufficient-particles error instead of producing
output. -/
theorem insufficient_particles_error {sz : ℕ} (store : ParticleStore (Cube sz))
    (np : Option ℤ) (draw : List ℕ)
    (h : effectiveNum np store.data.length / 2 = 0) :
    average_extracted_particles store np draw = .error .insufficientParticles := by
  unfold average_extracted_particles
  simp [h]

/-- C4 witness: requesting `num_particles = 1` on a two-entry store fails
with the insufficient-particles error. -/
theorem insufficient_particles_error_witness :
    average_extracted_particles demoStore2 (some 1) [] =
      .error .insufficientParticles :=
  insufficient_particles_error demoStore2 (some 1) [] (by decide)

/-- C7: a request of the default `0` (or `None`) resolves to the store's
entry count; a successful run forces `1 ≤ numP ≤ N`; and a request exceeding
`N` always returns an error. -/
theorem num_particles_policy {sz : ℕ} (store : ParticleStore (Cube sz)) :
    effectiveNum (some 0) store.data.length = store.data.length ∧
      effectiveNum none store.data.length = store.data.length ∧
      (∀ (np : Option ℤ) (draw : List ℕ) (hm : HalfMap sz × HalfMap sz),
        average_extracted_particles store np draw = .ok hm →
          1 ≤ effectiveNum np store.data.length ∧
            effectiveNum np store.data.length ≤ store.data.length) ∧
      (∀ (np : Option ℤ) (draw : List ℕ),
        store.data.length < effectiveNum np store.data.length →
          ∃ e, average_extracted_particles store np draw = .error e) := by
  refine ⟨rfl, rfl, ?_, ?_⟩
  · intro np draw hm hok
    unfold average_extracted_particles at hok
    by_cases h1 : effectiveNum np store.data.length / 2 = 0
    · simp [h1] at hok
    · by_cases h2 : effectiveNum np store.data.length ≤ store.data.length
      · exact ⟨by omega, h2⟩
      · simp [h1, h2] at hok
  · intro np draw hlt
    unfold average_extracted_particles
    by_cases h1 : effectiveNum np store.data.length / 2 = 0
    · exact ⟨.insufficientParticles, by simp [h1]⟩
    · have h2 : ¬ effectiveNum np store.data.length ≤ store.data.length := by
        omega
      exact ⟨.numParticlesExceedsStore, by simp [h1, h2]⟩

/-- C7 witness: on the two-entry store, the defaults resolve to 2, the
successful run with `num_particles = 2` satisfies the bounds, and requesting
5 particles fails. -/
theorem num_particles_policy_witness :
    effectiveNum (some 0) demoStore2.data.length = demoStore2.data.length ∧
      effectiveNum none demoStore2.data.length = demoStore2.data.length ∧
      (1 ≤ effectiveNum (some 2) demoStore2.data.length ∧
        effectiveNum (some 2) demoStore2.data.length ≤ demoStore2.data.length) ∧
      ∃ e, average_extracted_particles demoStore2 (some 5) [] = .error e := by
  have h := num_particles_policy demoStore2
  exact ⟨h.1, h.2.1, h.2.2.1 (some 2) [0, 1] demoHM demoHM_ok,
    h.2.2.2 (some 5) [] (by decide)⟩

/-- C5: the extraction half length equals `particle_size // 2` when an
explicit (nonzero) particle size is given; otherwise it is `n + 1` where `n`
is the ceiling of the square root of the summed squared per-axis distances
from the extent minimum to the axis midpoint (in voxel units) — `n` is
characterised both as `⌈√s⌉` over the reals and as the least natural number
whose square dominates `s`. -/
theorem half_length_formula (xmin xmax ymin ymax zmin zmax vx vy vz : ℚ) :
    (∀ ps : ℕ, ps ≠ 0 →
        half_length ps xmin xmax ymin ymax zmin zmax vx vy vz = ps / 2) ∧
      ∃ n : ℕ,
        half_length 0 xmin xmax ymin ymax zmin zmax vx vy vz = n + 1 ∧
          n = ⌈Real.sqrt ((boxRadiusSq xmin xmax ymin ymax zmin zmax vx vy vz : ℚ) : ℝ)⌉₊ ∧
          boxRadiusSq xmin xmax ymin ymax zmin zmax vx vy vz ≤ (n : ℚ) ^ 2 ∧
          ∀ m : ℕ, m < n →
            (m : ℚ) ^ 2 < boxRadiusSq xmin xmax ymin ymax zmin zmax vx vy vz := by
  constructor
  · intro ps hps
    simp [half_length, hps]
  · refine ⟨ceilSqrtQ (boxRadiusSq xmin xmax ymin ymax zmin zmax vx vy vz),
      by simp [half_length], ?_, Nat.find_spec (exists_natSq_ge _), ?_⟩
    · exact ceilSqrtQ_eq_ceil_sqrt _ (by unfold boxRadiusSq; positivity)
    · intro m hm
      exact lt_of_not_le fun hle => Nat.find_min (exists_natSq_ge _) hm hle

/-- C5 witness: an explicit particle size of 10 gives half length 5; for the
extent `[0, 2]^3` with unit voxels the implicit branch gives `n + 1` with
`n` the ceiling square root of 3. -/
theorem half_length_formula_witness :
    half_length 10 0 2 0 2 0 2 1 1 1 = 5 ∧
      ∃ n : ℕ,
        half_length 0 0 2 0 2 0 2 1 1 1 = n + 1 ∧
          n = ⌈Real.sqrt ((boxRadiusSq 0 2 0 2 0 2 1 1 1 : ℚ) : ℝ)⌉₊ ∧
          boxRadiusSq 0 2 0 2 0 2 1 1 1 ≤ (n : ℚ) ^ 2 ∧
          ∀ m : ℕ, m < n → (m : ℚ) ^ 2 < boxRadiusSq 0 2 0 2 0 2 1 1 1 :=
  ⟨(half_length_formula 0 2 0 2 0 2 1 1 1).1 10 (by decide),
    (half_length_formula 0 2 0 2 0 2 1 1 1).2⟩

/-- C6: for any completion order of the per-particle task results, the
coordinator's store ends with exactly one entry per input particle, and each
append grows the store by exactly one. -/
theorem store_length_after_run {α : Type} (vs : ℚ × ℚ × ℚ)
    (taskResults completed : List (ℕ × α)) (hperm : completed.Perm taskResults) :
    (coordinatorRun vs completed).data.length = taskResults.length ∧
      ∀ (st : ParticleStore α) (c : α),
        (storeAppend st c).1.data.length = st.data.length + 1 := by
  constructor
  · rw [coordinatorRun_data, List.length_map]
    exact hperm.length_eq
  · intro st c
    simp [storeAppend]

/-- C6 witness: two task results arriving in swapped completion order still
leave a store of length 2, and an append to a one-entry store gives length
2. -/
theorem store_length_after_run_witness :
    (coordinatorRun (1, 1, 1) [((1 : ℕ), (2 : ℚ)), (0, 5)]).data.length = 2 ∧
      (storeAppend (⟨[(3 : ℚ)], (1, 1, 1)⟩ : ParticleStore ℚ) 4).1.data.length = 2 := by
  have h := store_length_after_run (1, 1, 1) [((0 : ℕ), (5 : ℚ)), (1, 2)]
    [((1 : ℕ), (2 : ℚ)), (0, 5)] (List.Perm.swap (0, 5) (1, 2) [])
  exact ⟨h.1, h.2 ⟨[(3 : ℚ)], (1, 1, 1)⟩ 4⟩

/-- C8: when the completed results are (in any order) the sampled windows of
the species' particles, every cube in the final store has shape `(L, L, L)`
with `L = 2 * half_length` — in particular all stored cubes have identical
shape. -/
theorem stored_cube_shapes (vol : ℤ → ℤ → ℤ → ℚ) (centres : List (ℤ × ℤ × ℤ))
    (half_len : ℕ) (vs : ℚ × ℚ × ℚ) (completed : List (ℕ × NCube))
    (hperm : (completed.map Prod.snd).Perm
      (centres.map fun c => volumeSampler vol c.1 c.2.1 c.2.2 half_len)) :
    ∀ cube ∈ (coordinatorRun vs completed).data,
      cubeShapeOk cube (2 * half_len) = true := by
  intro cube hc
  rw [coordinatorRun_data] at hc
  have hmem := hperm.mem_iff.mp hc
  obtain ⟨c, _, rfl⟩ := List.mem_map.mp hmem
  exact volumeSampler_shape vol c.1 c.2.1 c.2.2 half_len

/-- C8 witness: the stored cube of a one-particle run with half length 1 has
shape `(2, 2, 2)`. -/
theorem stored_cube_shapes_witness :
    cubeShapeOk (volumeSampler demoVol 0 0 0 1) 2 = true := by
  have h := stored_cube_shapes demoVol [(0, 0, 0)] 1 (1, 1, 1)
    [(0, volumeSampler demoVol 0 0 0 1)] (List.Perm.refl _)
  exact h (volumeSampler demoVol 0 0 0 1)
    (by rw [coordinatorRun_data]; exact List.mem_singleton.mpr rfl)

/-- C9: after the reordering step the positions are ascending in their
y-coordinate, and the multiset of position/orientation pairs is unchanged —
each position keeps its originally paired orientation. -/
theorem particles_sorted_by_y {α : Type} (positions : List (ℚ × ℚ × ℚ))
    (orientations : List α) :
    ((sortParticlesByY positions orientations).1.map fun p => p.2.1).Sorted (· ≤ ·) ∧
      ((sortParticlesByY positions orientations).1.zip
        (sortParticlesByY positions orientations).2).Perm
        (positions.zip orientations) := by
  constructor
  · have hs := @List.sorted_mergeSort ((ℚ × ℚ × ℚ) × α)
      (fun a b => decide (a.1.2.1 ≤ b.1.2.1))
      (fun a b c hab hbc => by
        simp only [decide_eq_true_eq] at *
        exact le_trans hab hbc)
      (fun a b => by
        simp only [Bool.or_eq_true, decide_eq_true_eq]
        exact le_total _ _)
      (positions.zip orientations)
    unfold sortParticlesByY
    simp only [List.map_map]
    exact List.Pairwise.map _ (fun a b h => by simpa using h) hs
  · unfold sortParticlesByY
    simp only [List.zip_map']
    have hid : (List.map (fun a => (a.1, a.2))
        ((positions.zip orientations).mergeSort
          fun a b => decide (a.1.2.1 ≤ b.1.2.1))) =
        (positions.zip orientations).mergeSort
          fun a b => decide (a.1.2.1 ≤ b.1.2.1) := by
      simp
    rw [hid]
    exact List.mergeSort_perm _ _

/-- C10: the guard sequence of `_extract_Config` succeeds exactly when the
voxel size is strictly positive and equal on all three axes and the sample
has exactly one molecule species; under these preconditions no assertion
branch is reachable. -/
theorem extract_guards_ok_iff (vs : ℚ × ℚ × ℚ) (n : ℕ) :
    extractGuards vs n = .ok () ↔
      0 < vs.1 ∧ vs.1 = vs.2.1 ∧ vs.1 = vs.2.2 ∧ n = 1 := by
  unfold extractGuards
  split_ifs with h1 h2 h3 h4 <;> simp_all

end Parakeet
